import Mathlib

/-!
Verification of the Samus-Manus agent core (samus_agent.py, memory.py,
heartbeat.py) against its natural-language specification.

The Python code is shallowly embedded: pure fragments become Lean functions,
the stateful run loop becomes explicit state passing, SQLite tables become
lists of records in insertion order, machine-level collaborators (pyautogui,
the eyes module, OpenAI, the manual input() prompt) become oracle fields of
explicit environment structures.  Wall-clock timestamps (`time.time()`) are
omitted from the record models: no verified property consults them, and the
recency order of records is represented by list (insertion) order.
-/

namespace SamusManus

/-! ### Python string primitives

All character-level operations work on the underlying character list (the
byte-position-based `String` library functions are avoided so that every
definition evaluates by kernel reduction).  `pyLower` models `str.lower()`
(the repository only lowercases ASCII text; `Char.toLower` agrees with
Python on ASCII).  `pyStrip` models `str.strip()` with no argument
(removing surrounding whitespace).  `str_contains hay needle` models
Python's `needle in hay` on strings. -/

def pyLower (s : String) : String := ⟨s.data.map Char.toLower⟩

def isPySpace (c : Char) : Bool :=
  c == ' ' || c == '\t' || c == '\n' || c == '\r' || c == '\x0b' || c == '\x0c'

def pyStrip (s : String) : String :=
  ⟨((s.data.dropWhile isPySpace).reverse.dropWhile isPySpace).reverse⟩

def strTake (s : String) (n : Nat) : String := ⟨s.data.take n⟩

def strStartsWith (s pre : String) : Bool := pre.data.isPrefixOf s.data

def containsChars (needle : List Char) : List Char → Bool
  | [] => needle.isEmpty
  | c :: rest => needle.isPrefixOf (c :: rest) || containsChars needle rest

def str_contains (hay needle : String) : Bool := containsChars needle.toList hay.toList

/-- Splitting on a single separator character, as Python's `s.split(sep)`. -/
def splitChars (sep : Char) : List Char → List (List Char)
  | [] => [[]]
  | c :: rest =>
    let r := splitChars sep rest
    if c == sep then [] :: r
    else
      match r with
      | [] => [[c]]
      | h :: t => (c :: h) :: t

def digitVal? (c : Char) : Option Nat :=
  if '0' ≤ c && c ≤ '9' then some (c.toNat - 48) else none

/-- The value of a non-empty all-digit character list, `none` otherwise. -/
def parseNatChars (cs : List Char) : Option Nat :=
  if cs.isEmpty then none
  else
    cs.foldl (fun acc c =>
      match acc, digitVal? c with
      | some n, some d => some (n * 10 + d)
      | _, _ => none) (some 0)

def joinSep (sep : String) : List String → String
  | [] => ""
  | [x] => x
  | x :: xs => x ++ sep ++ joinSep sep xs

def concatAll (l : List String) : String := l.foldl (fun a b => a ++ b) ""

/-- Python rendering of an optional string inside an f-string: `None` for a
missing value, the bare string otherwise. -/
def pyOptStr : Option String → String
  | none => "None"
  | some s => s

/-! ### Python `repr` of a string

Models CPython's `repr` for `str` as used by the `{...!r}` f-string
conversions in `execute_action`: quote with `'` unless the string contains
`'` and no `"`; escape backslash, the quote character, newline, carriage
return and tab; escape other control characters (below U+0020, and U+007F)
as `\xHH`.  Characters at or above U+0080 are modelled as printable. -/

def hexDigit (n : Nat) : Char :=
  if n < 10 then Char.ofNat (48 + n) else Char.ofNat (87 + n)

/-- The single-quote character (U+0027). -/
def singleQuoteChar : Char := Char.ofNat 39

/-- The double-quote character (U+0022). -/
def doubleQuoteChar : Char := Char.ofNat 34

def pyReprChar (quote : Char) (c : Char) : String :=
  if c = '\\' then "\\\\"
  else if c = quote then "\\" ++ quote.toString
  else if c = '\n' then "\\n"
  else if c = '\r' then "\\r"
  else if c = '\t' then "\\t"
  else if c.toNat < 32 || c.toNat == 127 then
    "\\x" ++ (hexDigit (c.toNat / 16)).toString ++ (hexDigit (c.toNat % 16)).toString
  else c.toString

def pyRepr (s : String) : String :=
  let quote : Char :=
    if s.data.any (fun c => c == singleQuoteChar) && !(s.data.any (fun c => c == doubleQuoteChar))
    then doubleQuoteChar else singleQuoteChar
  quote.toString ++ concatAll (s.data.map (pyReprChar quote)) ++ quote.toString

/-- Python `repr` of a list of strings, as printed by
`f"(sim) hotkey: {keys}"` in `execute_action`. -/
def pyListRepr (xs : List String) : String :=
  "[" ++ joinSep ", " (xs.map pyRepr) ++ "]"

/-! ### Action records

`Action` models the JSON action dicts produced by the planner and consumed by
`execute_action` (samus_agent.py).  Each Python dict key becomes an `Option`
field (`none` = key absent).  Numeric `seconds` values are carried as their
Python decimal rendering (they are only ever echoed into result strings,
never computed with). -/

structure Action where
  type : Option String := none
  seconds : Option String := none
  out : Option String := none
  x : Option Int := none
  y : Option Int := none
  button : Option String := none
  img : Option String := none
  text : Option String := none
  key : Option String := none
  keys : Option (List String) := none
  deriving Repr, DecidableEq

/-- A side effect performed against the GUI-automation backend (pyautogui or
the eyes screenshot helper) or the clock.  Simulated executions produce an
empty effect list. -/
inductive Effect where
  | sleep (seconds : String)
  | screenshotEyes (out : String)
  | screenshotPy (out : String)
  | click (x y : Int) (button : String)
  | doubleClick (x y : Int)
  | write (text : String)
  | press (key : String)
  | hotkey (keys : List String)
  deriving Repr, DecidableEq

/-- External collaborators of `execute_action`:
`pyautogui` is whether the pyautogui module imported successfully;
`eyesCapture out` is the result of `eyes.capture_screenshot(out)`
(`some path` on success, `none` when it raises, e.g. when no screenshot
backend is installed); `findOnScreen img` is the result of
`eyes.find_on_screen(img, ...)` (`none` when the image is not located). -/
structure ExecEnv where
  pyautogui : Bool
  eyesCapture : String → Option String
  findOnScreen : String → Option (Int × Int)

/-- `execute_action(action, apply)` from samus_agent.py (lines 140-220),
returning the result string together with the list of real side effects
performed.  The Python if/elif chain on `t = action.get("type")` is rendered
directly as an if/else-if chain on the optional `type` field. -/
def execute_action (env : ExecEnv) (action : Action) (apply : Bool) : String × List Effect :=
  let t := action.type
  if t = some "wait" then
    let s := action.seconds.getD "1.0"
    ("waited " ++ s ++ "s", [Effect.sleep s])
  else if t = some "screenshot" then
    let out := action.out.getD "screen.png"
    match env.eyesCapture out with
    | some path => ("screenshot saved " ++ path, [Effect.screenshotEyes out])
    | none =>
      if apply && env.pyautogui then ("screenshot saved " ++ out, [Effect.screenshotPy out])
      else ("(sim) screenshot -> " ++ out, [])
  else if t = some "click" then
    match action.x, action.y with
    | some x, some y =>
      let button := action.button.getD "left"
      if apply && env.pyautogui then
        ("clicked at (" ++ toString x ++ "," ++ toString y ++ ")", [Effect.click x y button])
      else ("(sim) click at (" ++ toString x ++ "," ++ toString y ++ ")", [])
    | _, _ => ("click: missing coordinates", [])
  else if t = some "double_click" then
    match action.x, action.y with
    | some x, some y =>
      if apply && env.pyautogui then
        ("double-clicked at (" ++ toString x ++ "," ++ toString y ++ ")", [Effect.doubleClick x y])
      else ("(sim) double-click at (" ++ toString x ++ "," ++ toString y ++ ")", [])
    | _, _ => ("double_click: missing coordinates", [])
  else if t = some "find_click" ∨ t = some "find-click" then
    match action.img with
    | none => ("find_click: missing img path", [])
    | some img =>
      if img = "" then ("find_click: missing img path", [])
      else
        match env.findOnScreen img with
        | none => ("image not found: " ++ img, [])
        | some (x, y) =>
          if apply && env.pyautogui then
            ("found and clicked " ++ img ++ " at (" ++ toString x ++ "," ++ toString y ++ ")",
              [Effect.click x y (action.button.getD "left")])
          else
            ("(sim) found " ++ img ++ " at (" ++ toString x ++ "," ++ toString y ++ ")", [])
  else if t = some "type" then
    let txt := action.text.getD ""
    if apply && env.pyautogui then ("typed: " ++ pyRepr txt, [Effect.write txt])
    else ("(sim) type: " ++ pyRepr txt, [])
  else if t = some "press" then
    let key := action.key.getD "enter"
    if apply && env.pyautogui then ("pressed: " ++ key, [Effect.press key])
    else ("(sim) press: " ++ key, [])
  else if t = some "hotkey" then
    let keys := action.keys.getD []
    if apply && env.pyautogui then ("hotkey: " ++ joinSep "+" keys, [Effect.hotkey keys])
    else ("(sim) hotkey: " ++ pyListRepr keys, [])
  else if t = some "done" then ("DONE", [])
  else ("Unknown action type: " ++ pyOptStr t, [])

/-! ### Planner -/

/-- `fallback_plan(task)` from samus_agent.py (lines 68-82): the deterministic
keyword planner used whenever no language-model backend is available. -/
def fallback_plan (task : String) : List Action :=
  let actions : List Action := []
  let actions :=
    if str_contains (pyLower task) "screenshot" then
      actions ++ [{ type := some "wait", seconds := some "0.5" },
                  { type := some "screenshot", out := some "samus_screenshot.png" }]
    else actions
  let actions :=
    if str_contains (pyLower task) "open" && str_contains (pyLower task) "notepad" then
      actions ++ [{ type := some "press", key := some "win" },
                  { type := some "type", text := some "notepad" },
                  { type := some "press", key := some "enter" }]
    else actions
  let actions := if actions.isEmpty then [{ type := some "type", text := some task }] else actions
  actions ++ [{ type := some "done" }]

/-- External collaborators of `plan_with_openai`: `openaiAvailable` is whether
the openai module imported and OPENAI_API_KEY is set; `llmActions task` is the
action list scraped by `parse_actions` from the chat-completion response
(`none` when the API call raises or parsing yields nothing; the persona lookup
and response parsing are internal to this external call). -/
structure PlanEnv where
  openaiAvailable : Bool
  llmActions : String → Option (List Action)

/-- `plan_with_openai(task)` from samus_agent.py (lines 85-124): uses the
language-model backend when available and its parse produced a non-empty
action list, otherwise the deterministic fallback planner. -/
def plan_with_openai (env : PlanEnv) (task : String) : List Action :=
  if env.openaiAvailable then
    match env.llmActions task with
    | some acts => if acts.isEmpty then fallback_plan task else acts
    | none => fallback_plan task
  else fallback_plan task

/-! ### Memory store (memory.py)

The SQLite `memories` table is modelled as a list of records in insertion
(rowid) order; `created_at DESC` ordering coincides with reverse insertion
order.  The `metadata` JSON column is modelled by `MemMetadata`, carrying
exactly the keys the repository writes and the approval scan reads.
The `embedding` JSON column (a list of floats) is modelled with rationals;
no verified property computes with embedding values. -/

structure MemMetadata where
  source : Option String := none
  task : Option String := none
  action : Option Action := none
  step : Option Nat := none
  applied : Option Bool := none
  deriving Repr, DecidableEq

structure MemRecord where
  id : Nat
  kind : String
  text : String
  metadata : MemMetadata := {}
  embedding : Option (List Rat) := none
  deriving Repr, DecidableEq

/-- SQLite `LIMIT ?` semantics: a negative limit means no limit. -/
def sqlLimit (limit : Int) (xs : List α) : List α :=
  if limit < 0 then xs else xs.take limit.toNat

/-- Python slice `xs[:k]` semantics: non-negative `k` takes the first `k`
elements; negative `k` drops the last `-k`. -/
def pySliceTo (k : Int) (xs : List α) : List α :=
  if k < 0 then xs.take (xs.length - k.natAbs) else xs.take k.toNat

/-- `Memory.all(limit)` from memory.py (lines 68-82): all records ordered
most recent first (`ORDER BY created_at DESC`), at most `limit` of them. -/
def Memory.all (store : List MemRecord) (limit : Int) : List MemRecord :=
  sqlLimit limit store.reverse

/-- `Memory._get_embedding` from memory.py (lines 42-52) in the configuration
where no embedding backend is available (no openai module or no
OPENAI_API_KEY): always returns `None`. -/
def Memory.get_embedding_nobackend (_text : String) : Option (List Rat) := none

/-- A record paired with its similarity score, as returned by
`Memory.query_similar`.  Python's float scores 1.0/0.0 in the substring
fallback are modelled as rationals. -/
structure ScoredRecord where
  score : Rat
  record : MemRecord
  deriving Repr, DecidableEq

/-- Stable insertion of one element into a score-descending list: the element
goes after all elements with a score at least as large, as Python's stable
`list.sort(key=..., reverse=True)` would place it. -/
def insertScoreDesc (x : ScoredRecord) : List ScoredRecord → List ScoredRecord
  | [] => [x]
  | y :: ys => if y.score < x.score then x :: y :: ys else y :: insertScoreDesc x ys

/-- Python's stable `matches.sort(key=lambda p: p[0], reverse=True)`. -/
def sortScoreDesc (xs : List ScoredRecord) : List ScoredRecord :=
  xs.foldl (fun acc x => insertScoreDesc x acc) []

/-- `Memory.query_similar(text, top_k)` from memory.py (lines 99-176) in the
configuration where `_get_embedding` returns `None` (no embedding backend),
i.e. the case-insensitive substring fallback of lines 162-176: every stored
record whose text contains the query is retained with score 1.0, the matches
are (stably) sorted by score descending, and the first `top_k` are returned. -/
def Memory.query_similar_nobackend (store : List MemRecord) (text : String) (top_k : Int) :
    List ScoredRecord :=
  let q := pyLower text
  let hits := store.filterMap (fun r =>
    let t := pyLower r.text
    let score : Rat := if str_contains t q then 1 else 0
    if 0 < score then some { score := score, record := r } else none)
  pySliceTo top_k (sortScoreDesc hits)

/-- `Memory.rebuild_missing_embeddings(limit)` from memory.py (lines 178-195),
parameterized by the `_get_embedding` collaborator: selects up to `limit`
records whose embedding is NULL, recomputes each embedding, updates the rows
where a (non-empty, hence truthy) embedding was obtained, and returns the
number updated together with the resulting table. -/
def Memory.rebuild_missing_embeddings (getEmb : String → Option (List Rat))
    (store : List MemRecord) (limit : Int) : Nat × List MemRecord :=
  let rows := sqlLimit limit (store.filter (fun r => r.embedding.isNone))
  rows.foldl (fun acc r =>
    match getEmb r.text with
    | some emb =>
      if emb.isEmpty then acc
      else (acc.1 + 1, acc.2.map (fun s => if s.id = r.id then { s with embedding := some emb } else s))
    | none => acc) (0, store)

/-! ### Approval gate (samus_agent.py, run_task lines 251-309) -/

/-- The match condition of the auto-approval scan (samus_agent.py line 262):
the record's metadata `task` equals the current task string, or its metadata
`action` is a dict whose optional `type` field equals the current action's
optional `type` field (two absent fields compare equal, as `None == None`
does in Python). -/
def approval_md_match (task : String) (atype : Option String) (md : MemMetadata) : Bool :=
  md.task == some task ||
    (match md.action with
     | some a => a.type == atype
     | none => false)

/-- The auto-approval scan of samus_agent.py lines 257-264: walk the records
(most recent first), skip records whose kind is not `approval`, and at the
first record whose metadata matches, answer with the record's text via
`str(text or '').strip().lower()`. -/
def scan_auto_answer : List MemRecord → String → Option String → Option String
  | [], _, _ => none
  | r :: rest, task, atype =>
    if r.kind ≠ "approval" then scan_auto_answer rest task atype
    else if approval_md_match task atype r.metadata then some (pyLower (pyStrip r.text))
    else scan_auto_answer rest task atype

/-! ### JSON rendering used for audit/plan text

`json.dumps` of an action dict.  Key order follows the structure's field
order (a model of Python dict insertion order); the serialized text is only
ever carried opaquely (the `plan` memory record's text and the audit
`question` for non-type/screenshot actions) and no verified property
inspects it. -/

def jsonEscChar (c : Char) : String :=
  if c = '\"' then "\\\""
  else if c = '\\' then "\\\\"
  else if c = '\n' then "\\n"
  else if c = '\r' then "\\r"
  else if c = '\t' then "\\t"
  else c.toString

def json_str (s : String) : String :=
  "\"" ++ concatAll (s.data.map jsonEscChar) ++ "\""

def json_dumps_action (a : Action) : String :=
  let fields : List (Option (String × String)) := [
    a.type.map (fun v => ("type", json_str v)),
    a.seconds.map (fun v => ("seconds", v)),
    a.out.map (fun v => ("out", json_str v)),
    a.x.map (fun v => ("x", toString v)),
    a.y.map (fun v => ("y", toString v)),
    a.button.map (fun v => ("button", json_str v)),
    a.img.map (fun v => ("img", json_str v)),
    a.text.map (fun v => ("text", json_str v)),
    a.key.map (fun v => ("key", json_str v)),
    a.keys.map (fun v => ("keys", "[" ++ joinSep ", " (v.map json_str) ++ "]"))]
  "\x7b" ++
    joinSep ", " ((fields.filterMap id).map (fun p => json_str p.1 ++ ": " ++ p.2)) ++
    "\x7d"

def json_dumps_actions (acts : List Action) : String :=
  "[" ++ joinSep ", " (acts.map json_dumps_action) ++ "]"

/-! ### The agent run loop (samus_agent.py, run_task lines 223-364) -/

/-- One line of the approval audit log (approval_audit.log).  The wall-clock
`ts` field is omitted from the model. -/
structure AuditEntry where
  auto : Bool
  approval : String
  answer : String
  question : String
  task : String
  action : Action
  step : Nat
  deriving Repr, DecidableEq

/-- The action snapshot written into an audit entry: `type` actions have
their text truncated to 1024 characters (samus_agent.py lines 273-276). -/
def audit_snapshot (a : Action) : Action :=
  if a.type == some "type" then
    match a.text with
    | some t => { a with text := some (strTake t 1024) }
    | none => a
  else a

/-- The human-readable `question` string of an audit entry
(samus_agent.py lines 278-291). -/
def question_text (a : Action) : String :=
  if a.type == some "type" then "Type: " ++ strTake (a.text.getD "") 200
  else if a.type == some "screenshot" then "Screenshot -> " ++ (a.out.getD "")
  else json_dumps_action a

def mk_audit_entry (auto : Bool) (ans task : String) (action : Action) (step : Nat) : AuditEntry :=
  let snap := audit_snapshot action
  { auto := auto, approval := ans, answer := ans, question := question_text snap,
    task := task, action := snap, step := step }

/-- External collaborators of `run_task`: the executor backends, the planner
backend, the embedding backend used by `Memory.add`, and the interactive
`input()` prompt (an oracle indexed by the step number at which the prompt
occurs; the prompt's raw reply is then normalized by `.strip().lower()`). -/
structure RunEnv where
  exec : ExecEnv
  plan : PlanEnv
  getEmb : String → Option (List Rat)
  manualAnswer : Nat → String

/-- The mutable state threaded through one `run_task` invocation: the memory
table (shared SQLite file), the next memory rowid, the audit-log lines
appended so far, and the real side effects performed so far. -/
structure LoopState where
  mem : List MemRecord
  nextId : Nat
  audit : List AuditEntry
  effects : List Effect
  deriving Repr, DecidableEq

/-- `Memory.add(kind, text, metadata)` from memory.py (lines 54-66): appends
a record, storing an embedding only when the backend returns a truthy
(non-empty) one. -/
def LoopState.addMem (st : LoopState) (getEmb : String → Option (List Rat))
    (kind text : String) (md : MemMetadata) : LoopState :=
  let emb : Option (List Rat) :=
    match getEmb text with
    | some e => if e.isEmpty then none else some e
    | none => none
  { st with
    mem := st.mem ++ [{ id := st.nextId, kind := kind, text := text, metadata := md, embedding := emb }],
    nextId := st.nextId + 1 }

/-- The per-action approval decision of samus_agent.py lines 253-309 when
`approve_each` is on: if the auto-approval scan over the 200 most recent
memory records yields a truthy (non-empty) answer it is adopted (auto=true),
otherwise the user is prompted and the reply normalized (auto=false). -/
def gate_decision (env : RunEnv) (mem : List MemRecord) (task : String)
    (action : Action) (step : Nat) : Bool × String :=
  match scan_auto_answer (Memory.all mem 200) task action.type with
  | some s => if s ≠ "" then (true, s) else (false, pyLower (pyStrip (env.manualAnswer step)))
  | none => (false, pyLower (pyStrip (env.manualAnswer step)))

/-- What happened to one action of the plan: its 1-based step number, the
decided answer (`none` when `approve_each` is off), whether the answer came
from the auto-approval scan, and whether the action was executed (with its
result) or skipped. -/
structure StepEvent where
  step : Nat
  action : Action
  ans : Option String
  auto : Bool
  executed : Bool
  result : Option String
  deriving Repr, DecidableEq

/-- The body of one loop iteration of `run_task` (samus_agent.py lines
250-356): under `approve_each`, decide the answer, audit it, and skip the
action unless the answer is `y`/`yes`; otherwise execute the action and
record its result to memory.  Returns the step's event and the state after
the iteration. -/
def run_step (env : RunEnv) (task : String) (apply approve_each : Bool) (action : Action)
    (step : Nat) (st : LoopState) : StepEvent × LoopState :=
  let decided : Option (Bool × String) :=
    if approve_each then some (gate_decision env st.mem task action step) else none
  let st1 :=
    match decided with
    | some (auto, ans) => { st with audit := st.audit ++ [mk_audit_entry auto ans task action step] }
    | none => st
  let skip : Bool :=
    match decided with
    | some (_, ans) => !(ans == "y" || ans == "yes")
    | none => false
  if skip then
    ({ step := step, action := action, ans := decided.map Prod.snd,
       auto := (decided.map Prod.fst).getD false, executed := false, result := none }, st1)
  else
    let er := execute_action env.exec action apply
    let st2 := { st1 with effects := st1.effects ++ er.2 }
    let st3 := st2.addMem env.getEmb "action" er.1
      { task := some task, action := some action, step := some step, applied := some apply }
    ({ step := step, action := action, ans := decided.map Prod.snd,
       auto := (decided.map Prod.fst).getD false, executed := true, result := some er.1 }, st3)

/-- The action loop of `run_task` (samus_agent.py lines 244-364): count the
step; stop once the counter exceeds `max_steps`; run the iteration body; on
a `DONE` result record the task completion to memory and stop. -/
def run_loop (env : RunEnv) (task : String) (apply approve_each : Bool) (max_steps : Int) :
    List Action → Nat → LoopState → LoopState × List StepEvent
  | [], _, st => (st, [])
  | action :: rest, step0, st =>
    let step := step0 + 1
    if (step : Int) > max_steps then (st, [])
    else
      let p := run_step env task apply approve_each action step st
      if p.1.executed && (p.1.result == some "DONE") then
        (p.2.addMem env.getEmb "task_result" "done" { task := some task }, [p.1])
      else
        let r := run_loop env task apply approve_each max_steps rest step p.2
        (r.1, p.1 :: r.2)

/-- The state after the pre-loop persistence of `run_task` (samus_agent.py
lines 225-238): the incoming task and the produced plan are recorded to
memory (best-effort; the model's memory writes always succeed). -/
def run_task_init (env : RunEnv) (task : String) (mem0 : List MemRecord) (nextId0 : Nat) :
    LoopState :=
  let st : LoopState := { mem := mem0, nextId := nextId0, audit := [], effects := [] }
  let st := st.addMem env.getEmb "task" task { source := some "samus_agent" }
  st.addMem env.getEmb "plan" (json_dumps_actions (plan_with_openai env.plan task))
    { task := some task }

/-- `run_task(task, apply, approve_each, max_steps)` from samus_agent.py
(lines 223-364), over an initial memory table: persist the task and the
produced plan to memory, then run the action loop. -/
def run_task (env : RunEnv) (task : String) (apply approve_each : Bool) (max_steps : Int)
    (mem0 : List MemRecord) (nextId0 : Nat) : LoopState × List StepEvent :=
  let actions := plan_with_openai env.plan task
  let st := run_task_init env task mem0 nextId0
  if actions.isEmpty then (st, [])
  else run_loop env task apply approve_each max_steps actions 0 st

/-! ### Heartbeat scheduler (samus_manus_mvp/heartbeat.py) -/

/-- One entry of the tasks.json queue.  `created_at`/`completed_at`
timestamps are omitted; `auto_approve`/`auto_apply` model the truthiness of
the corresponding optional keys. -/
structure TaskRecord where
  id : String
  task : String
  status : String
  result : Option String := none
  auto_approve : Bool := false
  auto_apply : Bool := false
  deriving Repr, DecidableEq

/-- The captured stdout+stderr of one agent subprocess (run_task_sim,
heartbeat.py lines 54-67).  Its exact text is immaterial to every verified
property — the heartbeat only stores it as the task's result — and a string
is always produced (a subprocess failure yields "Error running task: ..."). -/
def run_output (task : String) (r : LoopState × List StepEvent) : String :=
  "Task: " ++ task ++ "\n\n" ++ joinSep "\n" (r.2.map (fun e => e.result.getD "Skipped"))

/-- The per-task apply policy of heartbeat.py lines 93-98. -/
def heartbeat_apply_now (mode : String) (global_auto_apply : Bool) (t : TaskRecord) : Bool :=
  let task_auto := t.auto_approve || t.auto_apply
  if mode = "global" then global_auto_apply || task_auto else task_auto

/-- The accumulated outcome of the pending-task sweep of one heartbeat tick:
the updated queue, the number of approval-audit lines appended, the updated
memory table and next rowid, and whether some processed task's text started
with "make an approval" (case-insensitive). -/
structure TickScan where
  tasks : List TaskRecord
  auditLines : Nat
  mem : List MemRecord
  nextId : Nat
  processedApproval : Bool
  deriving Repr

/-- The pending-task sweep of `check_once` (heartbeat.py lines 85-113): each
pending task is run through the agent (always with `--no-approve`, i.e.
`approve_each = false`, and the agent's default `max_steps = 20`; real
side effects only per the apply policy), marked done and given the captured
output as its result.  The shared memory table is threaded between the
subprocess invocations. -/
def process_tasks (env : RunEnv) (mode : String) (gaa : Bool) :
    List TaskRecord → List MemRecord → Nat → TickScan
  | [], mem, nid =>
    { tasks := [], auditLines := 0, mem := mem, nextId := nid, processedApproval := false }
  | t :: rest, mem, nid =>
    if t.status = "pending" then
      let applyNow := heartbeat_apply_now mode gaa t
      let r := run_task env t.task applyNow false 20 mem nid
      let t1 := { t with status := "done", result := some (run_output t.task r) }
      let pa := strStartsWith (pyLower t.task) "make an approval"
      let s := process_tasks env mode gaa rest r.1.mem r.1.nextId
      { s with tasks := t1 :: s.tasks,
               auditLines := r.1.audit.length + s.auditLines,
               processedApproval := pa || s.processedApproval }
    else
      let s := process_tasks env mode gaa rest mem nid
      { s with tasks := t :: s.tasks }

/-- Python `int()` on the id fragment after `task-` (heartbeat.py line 119):
the repository's ids carry plain decimal digits there; a parse failure
raises ValueError, modelled as `none`. -/
def python_int? (s : String) : Option Nat := parseNatChars s.data

/-- The next-id computation of heartbeat.py lines 117-120: over ids of the
form `task-N`, one more than the largest `N` (1 when there are none).
`none` models the uncaught ValueError when some such id's fragment is not
numeric. -/
def compute_next_task_num (tasks : List TaskRecord) : Option Nat :=
  let nt := (tasks.map (fun t => t.id)).filter (fun x => strStartsWith x "task-")
  match nt.mapM (fun x => python_int? ⟨((splitChars '-' x.data).getD 1 [])⟩) with
  | none => none
  | some nums => some (match nums.max? with | some m => m + 1 | none => 1)

/-- `check_once(announce, global_auto_apply, mode)` from heartbeat.py
(lines 70-138) acting on the task queue: sweep the pending tasks, and if a
"make an approval" task was processed, append one fresh pending
`make an approval` task with `auto_approve = true`.  The TTS announcement
and the heartbeat-state timestamps are omitted (they do not affect the
queue or the audit log).  Returns the saved queue together with the number
of approval-audit lines appended during the tick, or `none` when the
next-id computation raises. -/
def check_once (env : RunEnv) (tasks : List TaskRecord) (mem : List MemRecord) (nid : Nat)
    (global_auto_apply : Bool) (mode : String) : Option (List TaskRecord × Nat) :=
  let s := process_tasks env mode global_auto_apply tasks mem nid
  if s.processedApproval then
    match compute_next_task_num s.tasks with
    | none => none
    | some n =>
      some (s.tasks ++
        [{ id := "task-" ++ toString n, task := "make an approval",
           status := "pending", auto_approve := true }], s.auditLines)
  else
    some (s.tasks, s.auditLines)

/-! ### Simulability

The action shapes for which `execute_action` has a simulation branch: a
recognized kind whose required fields are present (and, for `screenshot`,
no eyes backend; for `find_click`, an image that is actually located). -/

def sim_eligible (env : ExecEnv) (a : Action) : Prop :=
  (a.type = some "screenshot" ∧ env.eyesCapture (a.out.getD "screen.png") = none) ∨
  (a.type = some "click" ∧ a.x.isSome = true ∧ a.y.isSome = true) ∨
  (a.type = some "double_click" ∧ a.x.isSome = true ∧ a.y.isSome = true) ∨
  ((a.type = some "find_click" ∨ a.type = some "find-click") ∧
    ∃ img pos, a.img = some img ∧ img ≠ "" ∧ env.findOnScreen img = some pos) ∨
  a.type = some "type" ∨
  a.type = some "press" ∨
  a.type = some "hotkey"

/-! ### Concrete sample data used by closed instances -/

/-- An executor environment with every GUI backend absent. -/
def simEnvNoBackend : ExecEnv :=
  { pyautogui := false, eyesCapture := fun _ => none, findOnScreen := fun _ => none }

/-- A planner environment with no language-model backend. -/
def planEnvNoLLM : PlanEnv := { openaiAvailable := false, llmActions := fun _ => none }

/-- A run environment with every external backend absent whose prompt always
answers "n". -/
def runEnvNoBackend : RunEnv :=
  { exec := simEnvNoBackend, plan := planEnvNoLLM, getEmb := fun _ => none,
    manualAnswer := fun _ => "n" }

/-- A stored approval whose metadata task is "demo task" and whose text is
the upper-case "YES". -/
def approvalRecYES : MemRecord :=
  { id := 1, kind := "approval", text := "YES", metadata := { task := some "demo task" } }

/-- A stored approval matching click actions, with text "OK". -/
def approvalRecOK : MemRecord :=
  { id := 1, kind := "approval", text := "OK",
    metadata := { action := some { type := some "click" } } }

def helloRec : MemRecord := { id := 1, kind := "note", text := "hello world" }

def goodbyeRec : MemRecord := { id := 2, kind := "note", text := "goodbye" }

/-- The heartbeat scenario queue: one pending screenshot task. -/
def screenshotQueue : List TaskRecord :=
  [{ id := "task-1", task := "Take a screenshot", status := "pending" }]

/-- A queue with one pending task whose text is exactly "make an approval". -/
def approvalQueue : List TaskRecord :=
  [{ id := "task-1", task := "make an approval", status := "pending" }]

/-- A queue with one pending task starting with "make an approval"
case-insensitively but with different text. -/
def approvalUpperQueue : List TaskRecord :=
  [{ id := "task-1", task := "MAKE AN APPROVAL please", status := "pending" }]

/-- The single event produced by running task "hello" with `max_steps = 1`
and no backend: the echoed type action at step 1. -/
def boundedEvent : StepEvent :=
  { step := 1, action := { type := some "type", text := some "hello" }, ans := none,
    auto := false, executed := true, result := some "(sim) type: 'hello'" }

/-- The first event produced by running task "hi" under `approve_each` with
a prompt that answers "n": the echoed type action at step 1, skipped. -/
def skippedEvent : StepEvent :=
  { step := 1, action := { type := some "type", text := some "hi" }, ans := some "n",
    auto := false, executed := false, result := none }

/-! ## Helper lemmas -/

theorem list_foldl_id {α β : Type _} (f : β → α → β) (hf : ∀ b a, f b a = b) :
    ∀ (l : List α) (b : β), l.foldl f b = b := by
  intro l
  induction l with
  | nil => intro b; rfl
  | cons a t ih => intro b; rw [List.foldl_cons, hf]; exact ih b

theorem isPrefixOf_append (p s t : List Char) (h : p.isPrefixOf s = true) :
    p.isPrefixOf (s ++ t) = true := by
  induction p generalizing s with
  | nil => simp [List.isPrefixOf]
  | cons c cs ih =>
    cases s with
    | nil => simp [List.isPrefixOf] at h
    | cons d ds =>
      rw [List.cons_append]
      have h2 : (c == d && cs.isPrefixOf ds) = true := h
      rw [Bool.and_eq_true] at h2
      show (c == d && cs.isPrefixOf (ds ++ t)) = true
      rw [Bool.and_eq_true]
      exact ⟨h2.1, ih ds h2.2⟩

theorem sim_startsWith_append (s t : String) (h : strStartsWith s "(sim) " = true) :
    strStartsWith (s ++ t) "(sim) " = true := by
  have hd : (s ++ t).data = s.data ++ t.data := rfl
  unfold strStartsWith at h ⊢
  rw [hd]
  exact isPrefixOf_append _ _ _ h

theorem query_hits_eq (store : List MemRecord) (q : String) :
    store.filterMap (fun r =>
      let t := pyLower r.text
      let score : Rat := if str_contains t q then 1 else 0
      if 0 < score then some { score := score, record := r } else none)
    = (store.filter (fun r => str_contains (pyLower r.text) q)).map
        (fun r => ({ score := 1, record := r } : ScoredRecord)) := by
  induction store with
  | nil => rfl
  | cons r t ih =>
    by_cases h : str_contains (pyLower r.text) q = true
    · simp [List.filterMap_cons, List.filter_cons, h, ih, show (0:Rat) < 1 by norm_num]
    · simp [List.filterMap_cons, List.filter_cons, h, ih, show ¬ (0:Rat) < 0 by norm_num]

theorem insertScoreDesc_of_not_lt (x : ScoredRecord) (ys : List ScoredRecord)
    (h : ∀ y ∈ ys, ¬ y.score < x.score) : insertScoreDesc x ys = ys ++ [x] := by
  induction ys with
  | nil => rfl
  | cons y t ih =>
    rw [insertScoreDesc, if_neg (h y (List.mem_cons_self y t))]
    rw [ih (fun z hz => h z (List.mem_cons_of_mem y hz))]
    rfl

theorem sortScoreDesc_of_const (l : List ScoredRecord) (hl : ∀ x ∈ l, x.score = 1) :
    sortScoreDesc l = l := by
  have key : ∀ (l2 : List ScoredRecord), (∀ x ∈ l2, x.score = 1) →
      ∀ (acc : List ScoredRecord), (∀ x ∈ acc, x.score = 1) →
      l2.foldl (fun a x => insertScoreDesc x a) acc = acc ++ l2 := by
    intro l2
    induction l2 with
    | nil => intro _ acc _; simp
    | cons x t ih =>
      intro hl2 acc hacc
      rw [List.foldl_cons]
      rw [insertScoreDesc_of_not_lt x acc (fun y hy => by
        rw [hacc y hy, hl2 x (List.mem_cons_self x t)]
        exact lt_irrefl 1)]
      rw [ih (fun z hz => hl2 z (List.mem_cons_of_mem x hz)) (acc ++ [x]) (fun z hz => by
        rcases List.mem_append.mp hz with h | h
        · exact hacc z h
        · rw [List.mem_singleton.mp h]; exact hl2 x (List.mem_cons_self x t))]
      simp
  have h0 := key l hl [] (by intro x hx; simp at hx)
  simpa [sortScoreDesc] using h0

/-! ## Claims -/

/-- C8: With no embedding backend available (the query embedding is always
`None`), `rebuild_missing_embeddings` is idempotent and inert: calling it
twice, with any limits, returns an updated-count of 0 both times and leaves
every record's embedding column unchanged. -/
theorem rebuild_missing_embeddings_inert (store : List MemRecord) (limit limit2 : Int) :
    Memory.rebuild_missing_embeddings Memory.get_embedding_nobackend store limit = (0, store) ∧
    Memory.rebuild_missing_embeddings Memory.get_embedding_nobackend
      (Memory.rebuild_missing_embeddings Memory.get_embedding_nobackend store limit).2 limit2
      = (0, store) := by
  have h : ∀ (s : List MemRecord) (l : Int),
      Memory.rebuild_missing_embeddings Memory.get_embedding_nobackend s l = (0, s) := by
    intro s l
    unfold Memory.rebuild_missing_embeddings
    exact list_foldl_id _ (fun b a => rfl) _ _
  refine ⟨h store limit, ?_⟩
  rw [h store limit]
  exact h store limit2

/-- C9: For every action of kind `type` with any text field, executing with
`apply = false` returns exactly the string "(sim) type: " followed by the
Python repr (quoted form) of the provided text, and performs no side
effect. -/
theorem execute_type_without_apply_sim_repr (env : ExecEnv) (a : Action) (txt : String)
    (ht : a.type = some "type") (htxt : a.text = some txt) :
    execute_action env a false = ("(sim) type: " ++ pyRepr txt, []) := by
  simp [execute_action, ht, htxt]

/-- Witness for C9 at a concrete type action. -/
theorem execute_type_without_apply_sim_repr_applied :
    execute_action simEnvNoBackend { type := some "type", text := some "hello" } false
      = ("(sim) type: 'hello'", []) := by
  rw [execute_type_without_apply_sim_repr simEnvNoBackend _ "hello" rfl rfl]
  decide

/-- C3 (amended): When `apply` is false or the pyautogui backend is
unavailable, `execute_action` returns a "(sim) "-prefixed string and
performs no side effect for every action of a simulable shape (screenshot
with no eyes backend, click/double_click with coordinates, find_click with
an image that is located, type, press, hotkey).  Actions of kind `wait`
return "waited ...s" (and sleep), `done` returns "DONE", and malformed or
unknown actions return error strings without the prefix. -/
theorem execute_action_simulates_without_apply (env : ExecEnv) (a : Action) (apply : Bool)
    (hback : apply = false ∨ env.pyautogui = false) (he : sim_eligible env a) :
    strStartsWith (execute_action env a apply).1 "(sim) " = true ∧
    (execute_action env a apply).2 = [] := by
  have happ : (apply && env.pyautogui) = false := by
    rcases hback with h | h <;> simp [h]
  rcases he with ⟨ht, hc⟩ | ⟨ht, hx, hy⟩ | ⟨ht, hx, hy⟩ | ⟨ht, img, pos, hi, hne, hf⟩ | ht | ht | ht
  · simp only [execute_action, ht, hc, happ, Bool.false_eq_true, if_false]
    refine ⟨?_, rfl⟩
    apply sim_startsWith_append
    decide
  · obtain ⟨x, hx2⟩ := Option.isSome_iff_exists.mp hx
    obtain ⟨y, hy2⟩ := Option.isSome_iff_exists.mp hy
    simp only [execute_action, ht, hx2, hy2, happ, Bool.false_eq_true, if_false]
    refine ⟨?_, rfl⟩
    repeat apply sim_startsWith_append
    decide
  · obtain ⟨x, hx2⟩ := Option.isSome_iff_exists.mp hx
    obtain ⟨y, hy2⟩ := Option.isSome_iff_exists.mp hy
    simp only [execute_action, ht, hx2, hy2, happ, Bool.false_eq_true, if_false]
    refine ⟨?_, rfl⟩
    repeat apply sim_startsWith_append
    decide
  · rcases ht with ht | ht <;>
    · simp only [execute_action, ht, hi, hne, hf, happ, Bool.false_eq_true, if_false,
        if_neg hne]
      refine ⟨?_, rfl⟩
      repeat apply sim_startsWith_append
      decide
  · simp only [execute_action, ht, happ, Bool.false_eq_true, if_false]
    refine ⟨?_, rfl⟩
    apply sim_startsWith_append
    decide
  · simp only [execute_action, ht, happ, Bool.false_eq_true, if_false]
    refine ⟨?_, rfl⟩
    apply sim_startsWith_append
    decide
  · simp only [execute_action, ht, happ, Bool.false_eq_true, if_false]
    refine ⟨?_, rfl⟩
    apply sim_startsWith_append
    decide

/-- Counterexample for C3 as stated: the `done` action record, with
`apply = false` and no backend, yields "DONE", which does not carry the
"(sim) " prefix. -/
theorem execute_action_done_without_sim_marker :
    (execute_action simEnvNoBackend { type := some "done" } false).1 = "DONE" ∧
    strStartsWith (execute_action simEnvNoBackend { type := some "done" } false).1 "(sim) "
      = false := by
  decide

/-- Witness for C3 (amended) at a concrete press action. -/
theorem execute_action_simulates_without_apply_applied :
    strStartsWith
      (execute_action simEnvNoBackend { type := some "press", key := some "enter" } false).1
      "(sim) " = true ∧
    (execute_action simEnvNoBackend { type := some "press", key := some "enter" } false).2
      = [] :=
  execute_action_simulates_without_apply simEnvNoBackend
    { type := some "press", key := some "enter" } false (Or.inl rfl)
    (Or.inr (Or.inr (Or.inr (Or.inr (Or.inr (Or.inl rfl))))))

/-- C6: With no embedding backend, `query_similar(text, top_k)` returns
exactly the records whose stored text contains the query case-insensitively
(in store order), each scored 1.0, cut to the first `top_k`; every returned
record matches and none other is returned; and the hello/goodbye scenario
returns only the "hello world" record with score 1.0. -/
theorem query_similar_substring_fallback (store : List MemRecord) (text : String) (top_k : Int) :
    Memory.query_similar_nobackend store text top_k
      = pySliceTo top_k ((store.filter (fun r => str_contains (pyLower r.text) (pyLower text))).map
          (fun r => ({ score := 1, record := r } : ScoredRecord))) ∧
    (∀ p ∈ Memory.query_similar_nobackend store text top_k,
        p.score = 1 ∧ str_contains (pyLower p.record.text) (pyLower text) = true) ∧
    (0 ≤ top_k → (Memory.query_similar_nobackend store text top_k).length ≤ top_k.toNat) ∧
    Memory.query_similar_nobackend [helloRec, goodbyeRec] "hello" 5
      = [{ score := 1, record := helloRec }] := by
  have h1 : Memory.query_similar_nobackend store text top_k
      = pySliceTo top_k ((store.filter (fun r => str_contains (pyLower r.text) (pyLower text))).map
          (fun r => ({ score := 1, record := r } : ScoredRecord))) := by
    simp only [Memory.query_similar_nobackend]
    rw [query_hits_eq, sortScoreDesc_of_const]
    intro x hx
    rcases List.mem_map.mp hx with ⟨r, _, rfl⟩
    rfl
  refine ⟨h1, ?_, ?_, by decide⟩
  · intro p hp
    rw [h1] at hp
    have hp2 : p ∈ (store.filter fun r => str_contains (pyLower r.text) (pyLower text)).map
        (fun r => ({ score := 1, record := r } : ScoredRecord)) := by
      unfold pySliceTo at hp
      split at hp
      · exact List.take_subset _ _ hp
      · exact List.take_subset _ _ hp
    rcases List.mem_map.mp hp2 with ⟨r, hr, rfl⟩
    exact ⟨rfl, (List.mem_filter.mp hr).2⟩
  · intro hk
    rw [h1]
    unfold pySliceTo
    rw [if_neg (by omega)]
    exact List.length_take_le _ _

/-- Witness for C6 applied at the hello/goodbye store with a non-negative
top_k. -/
theorem query_similar_substring_fallback_applied :
    (Memory.query_similar_nobackend [helloRec, goodbyeRec] "hello" 5).length ≤ (5 : Int).toNat :=
  (query_similar_substring_fallback [helloRec, goodbyeRec] "hello" 5).2.2.1 (by norm_num)

/-- C7: With no language-model backend, the planner returns the
deterministic fallback plan, which always ends with a `done` action; and
for every task containing "screenshot" (case-insensitively) that plan
contains a `screenshot` action at an earlier position than a `done`
action. -/
theorem fallback_plan_screenshot_then_done (env : PlanEnv) (task : String)
    (h : env.openaiAvailable = false) :
    plan_with_openai env task = fallback_plan task ∧
    (fallback_plan task).getLast? = some { type := some "done" } ∧
    (str_contains (pyLower task) "screenshot" = true →
      ∃ i j : Nat, i < j ∧
        (∃ a, (fallback_plan task).get? i = some a ∧ a.type = some "screenshot") ∧
        (∃ b, (fallback_plan task).get? j = some b ∧ b.type = some "done")) := by
  refine ⟨by simp [plan_with_openai, h], ?_, ?_⟩
  · unfold fallback_plan
    exact List.getLast?_concat _
  · intro hscr
    by_cases hnote :
        (str_contains (pyLower task) "open" && str_contains (pyLower task) "notepad") = true
    · refine ⟨1, 5, by norm_num, ?_, ?_⟩
      · exact ⟨{ type := some "screenshot", out := some "samus_screenshot.png" },
          by simp [fallback_plan, hscr, hnote], rfl⟩
      · exact ⟨{ type := some "done" }, by simp [fallback_plan, hscr, hnote], rfl⟩
    · refine ⟨1, 2, by norm_num, ?_, ?_⟩
      · exact ⟨{ type := some "screenshot", out := some "samus_screenshot.png" },
          by simp [fallback_plan, hscr, hnote], rfl⟩
      · exact ⟨{ type := some "done" }, by simp [fallback_plan, hscr, hnote], rfl⟩

/-- Witness for C7 with no backend at the task "Take a screenshot". -/
theorem fallback_plan_screenshot_then_done_applied :
    plan_with_openai planEnvNoLLM "Take a screenshot" = fallback_plan "Take a screenshot" ∧
    (fallback_plan "Take a screenshot").getLast? = some { type := some "done" } :=
  ⟨(fallback_plan_screenshot_then_done planEnvNoLLM "Take a screenshot" rfl).1,
   (fallback_plan_screenshot_then_done planEnvNoLLM "Take a screenshot" rfl).2.1⟩

/-! ## Structural lemmas about the run loop -/

theorem run_step_basic (env : RunEnv) (task : String) (apply ae : Bool) (action : Action)
    (step : Nat) (st : LoopState) :
    (run_step env task apply ae action step st).1.step = step ∧
    (run_step env task apply ae action step st).1.action = action := by
  cases ae with
  | false => simp [run_step]
  | true =>
    rcases hgd : gate_decision env st.mem task action step with ⟨auto, ans⟩
    by_cases haff : (ans == "y" || ans == "yes") = true
    · simp [run_step, hgd, haff]
    · simp [run_step, hgd, haff]

/-- An event with a decided answer is either a skip, or its answer was
affirmative. -/
theorem run_step_skip_iff (env : RunEnv) (task : String) (apply ae : Bool) (action : Action)
    (step : Nat) (st : LoopState) (a : String)
    (hans : (run_step env task apply ae action step st).1.ans = some a) :
    ((run_step env task apply ae action step st).1.executed = false ∧
     (run_step env task apply ae action step st).1.result = none) ∨
    (a = "y" ∨ a = "yes") := by
  cases ae with
  | false =>
    have hval : (run_step env task apply false action step st).1.ans = none := by
      simp [run_step]
    rw [hval] at hans
    cases hans
  | true =>
    rcases hgd : gate_decision env st.mem task action step with ⟨auto, ans⟩
    by_cases haff : (ans == "y" || ans == "yes") = true
    · right
      have hval : (run_step env task apply true action step st).1.ans = some ans := by
        simp [run_step, hgd, haff]
      rw [hval] at hans
      have h2 : ans = "y" ∨ ans = "yes" := by simpa using haff
      rw [← Option.some_inj.mp hans]
      exact h2
    · left
      constructor <;> simp [run_step, hgd, haff]

/-- The unfolding of one non-terminated loop iteration: either the step
produced `DONE` and the loop ends with that single event, or it continues
on the remaining actions. -/
theorem run_loop_cons_unfold (env : RunEnv) (task : String) (apply ae : Bool) (ms : Int)
    (a : Action) (rest : List Action) (step0 : Nat) (st : LoopState)
    (h : ¬ ((step0 + 1 : Nat) : Int) > ms) :
    (((run_step env task apply ae a (step0 + 1) st).1.executed &&
        ((run_step env task apply ae a (step0 + 1) st).1.result == some "DONE")) = true ∧
      (run_loop env task apply ae ms (a :: rest) step0 st).2
        = [(run_step env task apply ae a (step0 + 1) st).1]) ∨
    (((run_step env task apply ae a (step0 + 1) st).1.executed &&
        ((run_step env task apply ae a (step0 + 1) st).1.result == some "DONE")) = false ∧
      (run_loop env task apply ae ms (a :: rest) step0 st).2
        = (run_step env task apply ae a (step0 + 1) st).1 ::
            (run_loop env task apply ae ms rest (step0 + 1)
              (run_step env task apply ae a (step0 + 1) st).2).2) := by
  by_cases hd : ((run_step env task apply ae a (step0 + 1) st).1.executed &&
      ((run_step env task apply ae a (step0 + 1) st).1.result == some "DONE")) = true
  · left
    refine ⟨hd, ?_⟩
    simp only [run_loop]
    rw [if_neg h, if_pos hd]
  · right
    refine ⟨by simpa using hd, ?_⟩
    simp only [run_loop]
    rw [if_neg h, if_neg hd]

/-- Every event of the loop comes from `run_step`, its step number lies in
the processed range and below the step bound, and its action sits at the
corresponding plan position. -/
theorem run_loop_mem (env : RunEnv) (task : String) (apply ae : Bool) (ms : Int) :
    ∀ (actions : List Action) (step0 : Nat) (st : LoopState) (e : StepEvent),
      e ∈ (run_loop env task apply ae ms actions step0 st).2 →
      (∃ st2 : LoopState, e = (run_step env task apply ae e.action e.step st2).1) ∧
      step0 < e.step ∧ e.step ≤ step0 + actions.length ∧ (e.step : Int) ≤ ms ∧
      actions.get? (e.step - step0 - 1) = some e.action := by
  intro actions
  induction actions with
  | nil =>
    intro step0 st e he
    simp [run_loop] at he
  | cons a rest ih =>
    intro step0 st e he
    by_cases hms : ((step0 + 1 : Nat) : Int) > ms
    · rw [run_loop] at he
      rw [if_pos hms] at he
      simp at he
    · have hstep := run_step_basic env task apply ae a (step0 + 1) st
      have hhead : e = (run_step env task apply ae a (step0 + 1) st).1 →
          (∃ st2 : LoopState, e = (run_step env task apply ae e.action e.step st2).1) ∧
          step0 < e.step ∧ e.step ≤ step0 + (a :: rest).length ∧ (e.step : Int) ≤ ms ∧
          (a :: rest).get? (e.step - step0 - 1) = some e.action := by
        intro he2
        have hs : e.step = step0 + 1 := by rw [he2]; exact hstep.1
        have ha : e.action = a := by rw [he2]; exact hstep.2
        refine ⟨⟨st, ?_⟩, ?_, ?_, ?_, ?_⟩
        · rw [hs, ha]; exact he2
        · omega
        · simp only [List.length_cons]; omega
        · rw [hs]; omega
        · rw [hs, ha]; simp
      rcases run_loop_cons_unfold env task apply ae ms a rest step0 st hms with
        ⟨_, hev⟩ | ⟨_, hev⟩
      · rw [hev] at he
        exact hhead (List.mem_singleton.mp he)
      · rw [hev] at he
        rcases List.mem_cons.mp he with he2 | he2
        · exact hhead he2
        · obtain ⟨hex, h1, h2, h3, h4⟩ :=
            ih (step0 + 1) (run_step env task apply ae a (step0 + 1) st).2 e he2
          refine ⟨hex, by omega, by simp; omega, h3, ?_⟩
          have hidx : e.step - step0 - 1 = (e.step - (step0 + 1) - 1) + 1 := by omega
          rw [hidx, List.get?_cons_succ]
          exact h4

/-- The loop processes at most `max_steps - step0` further actions. -/
theorem run_loop_length_le (env : RunEnv) (task : String) (apply ae : Bool) (ms : Int) :
    ∀ (actions : List Action) (step0 : Nat) (st : LoopState),
      (run_loop env task apply ae ms actions step0 st).2.length ≤ ms.toNat - step0 := by
  intro actions
  induction actions with
  | nil => intro step0 st; simp [run_loop]
  | cons a rest ih =>
    intro step0 st
    by_cases hms : ((step0 + 1 : Nat) : Int) > ms
    · rw [run_loop, if_pos hms]
      simp
    · have hb : step0 + 1 ≤ ms.toNat := by omega
      rcases run_loop_cons_unfold env task apply ae ms a rest step0 st hms with
        ⟨_, hev⟩ | ⟨_, hev⟩
      · rw [hev]; simp; omega
      · rw [hev]
        have := ih (step0 + 1) (run_step env task apply ae a (step0 + 1) st).2
        simp only [List.length_cons]
        omega

/-- After a skipped step, if actions remain and the counter allows it, the
loop produces an event for the very next step. -/
theorem run_loop_next (env : RunEnv) (task : String) (apply ae : Bool) (ms : Int) :
    ∀ (actions : List Action) (step0 : Nat) (st : LoopState) (e : StepEvent),
      e ∈ (run_loop env task apply ae ms actions step0 st).2 →
      e.executed = false →
      e.step < step0 + actions.length →
      ((e.step + 1 : Nat) : Int) ≤ ms →
      ∃ e2 ∈ (run_loop env task apply ae ms actions step0 st).2, e2.step = e.step + 1 := by
  intro actions
  induction actions with
  | nil =>
    intro step0 st e he
    simp [run_loop] at he
  | cons a rest ih =>
    intro step0 st e he hex hlt hnext
    by_cases hms : ((step0 + 1 : Nat) : Int) > ms
    · rw [run_loop, if_pos hms] at he
      simp at he
    · have hstep := run_step_basic env task apply ae a (step0 + 1) st
      rcases run_loop_cons_unfold env task apply ae ms a rest step0 st hms with
        ⟨hdone, hev⟩ | ⟨_, hev⟩
      · -- the DONE case: the single event is executed, contradicting hex
        rw [hev] at he
        have he2 := List.mem_singleton.mp he
        rw [he2] at hex
        rw [hex] at hdone
        simp at hdone
      · rw [hev] at he ⊢
        rcases List.mem_cons.mp he with he2 | he2
        · -- e is the head: the loop recursed on `rest`, whose head event has step e.step + 1
          have hs : e.step = step0 + 1 := by rw [he2]; exact hstep.1
          have hrest : rest ≠ [] := by
            intro hr
            rw [hr] at hlt
            simp at hlt
            omega
          obtain ⟨b, rest2, rfl⟩ := List.exists_cons_of_ne_nil hrest
          have hms2 : ¬ ((step0 + 1 + 1 : Nat) : Int) > ms := by
            rw [hs] at hnext; omega
          have hstep2 := run_step_basic env task apply ae b (step0 + 1 + 1)
            (run_step env task apply ae a (step0 + 1) st).2
          rcases run_loop_cons_unfold env task apply ae ms b rest2 (step0 + 1)
              (run_step env task apply ae a (step0 + 1) st).2 hms2 with
            ⟨_, hev2⟩ | ⟨_, hev2⟩
          · refine ⟨(run_step env task apply ae b (step0 + 1 + 1)
                (run_step env task apply ae a (step0 + 1) st).2).1, ?_, ?_⟩
            · rw [hev2]
              exact List.mem_cons_of_mem _ (List.mem_singleton.mpr rfl)
            · rw [hstep2.1, hs]
          · refine ⟨(run_step env task apply ae b (step0 + 1 + 1)
                (run_step env task apply ae a (step0 + 1) st).2).1, ?_, ?_⟩
            · rw [hev2]
              exact List.mem_cons_of_mem _ (List.mem_cons_self _ _)
            · rw [hstep2.1, hs]
        · obtain ⟨e2, he2mem, he2s⟩ := ih (step0 + 1)
            (run_step env task apply ae a (step0 + 1) st).2 e he2 hex (by simp at hlt ⊢; omega)
            hnext
          exact ⟨e2, List.mem_cons_of_mem _ he2mem, he2s⟩

/-- The auto-approval scan is first-match: it equals `find?` over the
scanned records followed by the answer normalization. -/
theorem scan_auto_answer_eq_find (records : List MemRecord) (task : String)
    (atype : Option String) :
    scan_auto_answer records task atype
      = (records.find? (fun r =>
            r.kind == "approval" && approval_md_match task atype r.metadata)).map
          (fun r => pyLower (pyStrip r.text)) := by
  induction records with
  | nil => rfl
  | cons r t ih =>
    rw [scan_auto_answer]
    by_cases hk : r.kind = "approval"
    · by_cases hm : approval_md_match task atype r.metadata = true
      · rw [if_neg (by simp [hk]), if_pos hm]
        rw [List.find?_cons_of_pos _ (by simp [hk, hm])]
        rfl
      · rw [if_neg (by simp [hk]), if_neg (by simp [hm])]
        rw [List.find?_cons_of_neg _ (by simp [hk, hm]), ih]
    · rw [if_pos (by simp [hk])]
      rw [List.find?_cons_of_neg _ (by simp [hk]), ih]

/-- C1 (amended): under approve_each, the auto-approval scan walks the 200
most recent memory records (most recent first), considers only those of
kind `approval`, and the first record whose metadata `task` equals the
current task exactly, or whose metadata `action` dict's optional `type`
field equals the current action's optional `type` field, wins — no ranking
beyond first match.  The adopted answer is the record's stored text
lowercased and stripped of surrounding whitespace, and it is adopted only
when that normalized text is non-empty (otherwise the manual prompt is
used). -/
theorem auto_approval_first_match_normalized (mem : List MemRecord) (task : String)
    (atype : Option String) :
    scan_auto_answer (Memory.all mem 200) task atype
      = ((Memory.all mem 200).find? (fun r =>
            r.kind == "approval" && approval_md_match task atype r.metadata)).map
          (fun r => pyLower (pyStrip r.text)) ∧
    (∀ s, scan_auto_answer (Memory.all mem 200) task atype = some s → s ≠ "" →
      ∀ (env : RunEnv) (action : Action) (step : Nat), action.type = atype →
        gate_decision env mem task action step = (true, s)) := by
  refine ⟨scan_auto_answer_eq_find _ _ _, ?_⟩
  intro s hscan hs env action step htype
  unfold gate_decision
  rw [htype, hscan]
  simp [hs]

/-- Counterexample for C1 as stated: a matching approval record stores the
text "YES", but the adopted answer is the normalized "yes", not the stored
text itself. -/
theorem auto_approval_answer_not_verbatim :
    scan_auto_answer (Memory.all [approvalRecYES] 200) "demo task" (some "type") = some "yes" ∧
    gate_decision runEnvNoBackend [approvalRecYES] "demo task" { type := some "type" } 1
      = (true, "yes") ∧
    approvalRecYES.text = "YES" ∧ ("yes" : String) ≠ "YES" := by
  refine ⟨by decide, by decide, rfl, by decide⟩

/-- Witness for C1 (amended): an approval record with text "OK" matching
the click action type yields the auto-adopted normalized answer "ok". -/
theorem auto_approval_first_match_normalized_applied :
    gate_decision runEnvNoBackend [approvalRecOK] "t" { type := some "click" } 1 = (true, "ok") :=
  (auto_approval_first_match_normalized [approvalRecOK] "t" (some "click")).2 "ok"
    (by decide) (by decide) runEnvNoBackend { type := some "click" } 1 rfl

/-- C2: For every action processed under approve_each (auto or manual
path), a decided answer other than "y"/"yes" (the decided answer is always
already lowercased) causes the action to be skipped — it is never executed
and has no result — and, while actions and steps remain, the loop still
produces an event for the very next step (no retry, no abort). -/
theorem approve_each_nonaffirmative_skips (env : RunEnv) (task : String) (apply : Bool)
    (ms : Int) (mem0 : List MemRecord) (nid : Nat) :
    (∀ e ∈ (run_task env task apply true ms mem0 nid).2, ∀ a, e.ans = some a →
      a ≠ "y" → a ≠ "yes" → e.executed = false ∧ e.result = none) ∧
    (∀ e ∈ (run_task env task apply true ms mem0 nid).2, e.executed = false →
      e.step < (plan_with_openai env.plan task).length →
      ((e.step + 1 : Nat) : Int) ≤ ms →
      ∃ e2 ∈ (run_task env task apply true ms mem0 nid).2, e2.step = e.step + 1) := by
  constructor
  · intro e he a hans hy hyes
    by_cases hpl : (plan_with_openai env.plan task).isEmpty = true
    · simp only [run_task, if_pos hpl] at he
      simp at he
    · simp only [run_task, if_neg hpl] at he
      obtain ⟨⟨st2, hrs⟩, _⟩ := run_loop_mem env task apply true ms _ 0 _ e he
      have hsk := run_step_skip_iff env task apply true e.action e.step st2 a
        (by rw [← hrs]; exact hans)
      rcases hsk with h | h
      · rw [hrs]; exact h
      · rcases h with rfl | rfl
        · exact absurd rfl hy
        · exact absurd rfl hyes
  · intro e he hex hlt hnext
    by_cases hpl : (plan_with_openai env.plan task).isEmpty = true
    · simp only [run_task, if_pos hpl] at he
      simp at he
    · simp only [run_task, if_neg hpl] at he ⊢
      exact run_loop_next env task apply true ms _ 0 _ e he hex (by simpa using hlt) hnext

/-- Witness for C2: under a prompt that answers "n", the first plan action
for task "hi" is skipped. -/
theorem approve_each_nonaffirmative_skips_applied :
    skippedEvent.executed = false ∧ skippedEvent.result = none :=
  (approve_each_nonaffirmative_skips runEnvNoBackend "hi" false 20 [] 0).1
    skippedEvent (by decide) "n" rfl (by decide) (by decide)

/-- C10: For every plan and every max_steps value, `run_task` processes at
most max_steps actions, every processed event's step number stays at or
below max_steps, and each event's action sits at its step's position in
the plan — so no action beyond position max_steps is ever approved or
executed. -/
theorem run_task_bounded_by_max_steps (env : RunEnv) (task : String) (apply ae : Bool)
    (ms : Int) (mem0 : List MemRecord) (nid : Nat) :
    (run_task env task apply ae ms mem0 nid).2.length ≤ ms.toNat ∧
    (∀ e ∈ (run_task env task apply ae ms mem0 nid).2,
      (e.step : Int) ≤ ms ∧
      (plan_with_openai env.plan task).get? (e.step - 1) = some e.action) := by
  by_cases hpl : (plan_with_openai env.plan task).isEmpty = true
  · constructor
    · simp only [run_task, if_pos hpl]
      simp
    · intro e he
      simp only [run_task, if_pos hpl] at he
      simp at he
  · constructor
    · simp only [run_task, if_neg hpl]
      have := run_loop_length_le env task apply ae ms (plan_with_openai env.plan task) 0
        (run_task_init env task mem0 nid)
      omega
    · intro e he
      simp only [run_task, if_neg hpl] at he
      obtain ⟨_, _, _, h3, h4⟩ := run_loop_mem env task apply ae ms _ 0 _ e he
      exact ⟨h3, by simpa using h4⟩

/-- Witness for C10 at max_steps = 1: a two-action plan yields a single
processed event whose step respects the bound and matches the plan. -/
theorem run_task_bounded_by_max_steps_applied :
    (run_task runEnvNoBackend "hello" false false 1 [] 0).2.length ≤ (1 : Int).toNat ∧
    ((boundedEvent.step : Int) ≤ 1 ∧
      (plan_with_openai runEnvNoBackend.plan "hello").get? (boundedEvent.step - 1)
        = some boundedEvent.action) :=
  ⟨(run_task_bounded_by_max_steps runEnvNoBackend "hello" false false 1 [] 0).1,
   (run_task_bounded_by_max_steps runEnvNoBackend "hello" false false 1 [] 0).2 boundedEvent
     (by decide)⟩

/-! ## Heartbeat lemmas and claims -/

theorem run_step_no_approve_audit (env : RunEnv) (task : String) (apply : Bool)
    (action : Action) (step : Nat) (st : LoopState) :
    (run_step env task apply false action step st).2.audit = st.audit := rfl

theorem run_loop_no_approve_audit (env : RunEnv) (task : String) (apply : Bool) (ms : Int) :
    ∀ (actions : List Action) (step0 : Nat) (st : LoopState),
      (run_loop env task apply false ms actions step0 st).1.audit = st.audit := by
  intro actions
  induction actions with
  | nil => intro step0 st; rfl
  | cons a rest ih =>
    intro step0 st
    by_cases hms : ((step0 + 1 : Nat) : Int) > ms
    · rw [run_loop, if_pos hms]
    · simp only [run_loop]
      rw [if_neg hms]
      split
      · exact run_step_no_approve_audit env task apply a (step0 + 1) st
      · exact (ih (step0 + 1) _).trans (run_step_no_approve_audit env task apply a (step0 + 1) st)

/-- Without `approve_each` — and the heartbeat always passes `--no-approve`
— `run_task` writes no approval-audit line at all. -/
theorem run_task_no_approve_audit (env : RunEnv) (task : String) (apply : Bool) (ms : Int)
    (mem0 : List MemRecord) (nid : Nat) :
    (run_task env task apply false ms mem0 nid).1.audit = [] := by
  by_cases hpl : (plan_with_openai env.plan task).isEmpty = true
  · simp only [run_task, if_pos hpl]
    rfl
  · simp only [run_task, if_neg hpl]
    rw [run_loop_no_approve_audit]
    rfl

/-- C4 (amended): after one heartbeat tick over the queue containing only
the pending task {id: task-1, task: "Take a screenshot"}, with any backends
and apply policy, the task's status is "done" and its result is non-null —
but no new line is appended to the approval audit log (the heartbeat runs
the agent with `--no-approve`, bypassing the approval gate and its audit),
rather than the one line the claim states. -/
theorem heartbeat_tick_marks_done_no_audit (env : RunEnv) (mem0 : List MemRecord) (nid : Nat)
    (gaa : Bool) (mode : String) :
    (check_once env screenshotQueue mem0 nid gaa mode).map (fun r => r.1.map TaskRecord.status)
      = some ["done"] ∧
    (check_once env screenshotQueue mem0 nid gaa mode).map
      (fun r => r.1.map (fun t => t.result.isSome)) = some [true] ∧
    (check_once env screenshotQueue mem0 nid gaa mode).map (fun r => r.2) = some 0 := by
  have hpa : strStartsWith (pyLower "Take a screenshot") "make an approval" = false := by decide
  simp [check_once, process_tasks, screenshotQueue, hpa, run_task_no_approve_audit]

/-- Counterexample for C4 as stated: at the exact scenario input the number
of appended audit lines is 0, not 1. -/
theorem heartbeat_tick_audit_lines_not_one :
    (check_once runEnvNoBackend screenshotQueue [] 0 false "whitelist").map (fun r => r.2)
      = some 0 ∧
    (check_once runEnvNoBackend screenshotQueue [] 0 false "whitelist").map (fun r => r.2)
      ≠ some 1 := by
  refine ⟨by decide, by decide⟩

theorem process_tasks_length (env : RunEnv) (mode : String) (gaa : Bool) :
    ∀ (tasks : List TaskRecord) (mem : List MemRecord) (nid : Nat),
      (process_tasks env mode gaa tasks mem nid).tasks.length = tasks.length := by
  intro tasks
  induction tasks with
  | nil => intro mem nid; rfl
  | cons t rest ih =>
    intro mem nid
    rw [process_tasks]
    split
    · simp [ih]
    · simp [ih]

/-- The processed-approval flag is set exactly when some pending task's text
starts with "make an approval" case-insensitively. -/
theorem process_tasks_pa (env : RunEnv) (mode : String) (gaa : Bool) :
    ∀ (tasks : List TaskRecord) (mem : List MemRecord) (nid : Nat),
      ((process_tasks env mode gaa tasks mem nid).processedApproval = true ↔
        ∃ t ∈ tasks, t.status = "pending" ∧
          strStartsWith (pyLower t.task) "make an approval" = true) := by
  intro tasks
  induction tasks with
  | nil => intro mem nid; simp [process_tasks]
  | cons t rest ih =>
    intro mem nid
    rw [process_tasks]
    by_cases hp : t.status = "pending"
    · rw [if_pos hp]
      simp only [Bool.or_eq_true]
      constructor
      · rintro (hpa | hpa)
        · exact ⟨t, List.mem_cons_self t rest, hp, hpa⟩
        · obtain ⟨u, hu, h1, h2⟩ := (ih _ _).mp hpa
          exact ⟨u, List.mem_cons_of_mem _ hu, h1, h2⟩
      · rintro ⟨u, hu, h1, h2⟩
        rcases List.mem_cons.mp hu with rfl | hu2
        · exact Or.inl h2
        · exact Or.inr ((ih _ _).mpr ⟨u, hu2, h1, h2⟩)
    · rw [if_neg hp]
      constructor
      · intro hpa
        obtain ⟨u, hu, h1, h2⟩ := (ih _ _).mp hpa
        exact ⟨u, List.mem_cons_of_mem _ hu, h1, h2⟩
      · rintro ⟨u, hu, h1, h2⟩
        rcases List.mem_cons.mp hu with rfl | hu2
        · exact absurd h1 hp
        · exact (ih _ _).mpr ⟨u, hu2, h1, h2⟩

/-- C5 (amended): whenever at least one pending task whose text starts with
"make an approval" (case-insensitive) is processed to done by a heartbeat
tick, and the next-id computation succeeds, the saved queue is the
processed queue (same length as before) with a single appended task whose
id is task-N, whose text is the literal "make an approval" (not the
completed task's text), whose status is "pending" and whose auto_approve is
true — one appended task per tick regardless of how many such tasks
completed. -/
theorem heartbeat_reseeds_approval_task (env : RunEnv) (mem0 : List MemRecord) (nid : Nat)
    (gaa : Bool) (mode : String) (tasks : List TaskRecord) (n : Nat)
    (hpend : ∃ t ∈ tasks, t.status = "pending" ∧
      strStartsWith (pyLower t.task) "make an approval" = true)
    (hn : compute_next_task_num (process_tasks env mode gaa tasks mem0 nid).tasks = some n) :
    check_once env tasks mem0 nid gaa mode
      = some ((process_tasks env mode gaa tasks mem0 nid).tasks ++
          [{ id := "task-" ++ toString n, task := "make an approval", status := "pending",
             auto_approve := true }],
          (process_tasks env mode gaa tasks mem0 nid).auditLines) ∧
    (process_tasks env mode gaa tasks mem0 nid).tasks.length = tasks.length := by
  have hpa := (process_tasks_pa env mode gaa tasks mem0 nid).mpr hpend
  refine ⟨?_, process_tasks_length env mode gaa tasks mem0 nid⟩
  simp only [check_once]
  rw [if_pos hpa, hn]

/-- Witness for C5 (amended) at a queue holding the pending task
"make an approval" with id task-1. -/
theorem heartbeat_reseeds_approval_task_applied :
    check_once runEnvNoBackend approvalQueue [] 0 false "whitelist"
      = some ((process_tasks runEnvNoBackend "whitelist" false approvalQueue [] 0).tasks ++
          [{ id := "task-" ++ toString 2, task := "make an approval", status := "pending",
             auto_approve := true }],
          (process_tasks runEnvNoBackend "whitelist" false approvalQueue [] 0).auditLines) :=
  (heartbeat_reseeds_approval_task runEnvNoBackend [] 0 false "whitelist" approvalQueue 2
    ⟨{ id := "task-1", task := "make an approval", status := "pending" }, by decide, by decide,
     by decide⟩
    (by decide)).1

/-- Counterexample for C5 as stated: completing the pending task
"MAKE AN APPROVAL please" appends a task whose text is the literal
"make an approval", not the completed task's text. -/
theorem approval_reseed_text_differs :
    (check_once runEnvNoBackend approvalUpperQueue [] 0 false "whitelist").map
      (fun r => r.1.map TaskRecord.task)
      = some ["MAKE AN APPROVAL please", "make an approval"] ∧
    ("make an approval" : String) ≠ "MAKE AN APPROVAL please" := by
  refine ⟨by decide, by decide⟩

end SamusManus
